import Mathlib

/-!
Verification development for the compounding-machine screener
(`src/compoundingMachine.ts`).  Numeric values of the JavaScript program are
modelled as rationals (`ℚ`); values produced by fractional powers
(`Math.pow(x, 1/n)`) are modelled as reals via `Real.rpow`.  A JavaScript
value that may be `undefined` is modelled as an `Option`.
-/

namespace Screener

/-- `clamp` from `compoundingMachine.ts` (line 780):
`Math.max(min, Math.min(max, value))`. -/
def clamp {α : Type} [LinearOrder α] (value lo hi : α) : α :=
  max lo (min hi value)

/-- JavaScript `slice(-n)`: the last `n` elements of a list (all of it when it
is shorter than `n`). -/
def sliceLast {α : Type} (n : ℕ) (l : List α) : List α :=
  l.drop (l.length - n)

/-! ### Data model (`TickerSnapshot` and friends, lines 8-113) -/

/-- One row of the annual financials series. -/
structure AnnualFinancialPoint where
  date : String
  totalRevenue : Option ℚ
  netIncome : Option ℚ
  dilutedEPS : Option ℚ
  basicEPS : Option ℚ
  dilutedAverageShares : Option ℚ
deriving DecidableEq

/-- One row of the annual balance-sheet series. -/
structure AnnualBalanceSheetPoint where
  date : String
  stockholdersEquity : Option ℚ
  longTermDebt : Option ℚ
  longTermDebtAndCapitalLeaseObligation : Option ℚ
  totalDebt : Option ℚ
  cashAndCashEquivalents : Option ℚ
  cashCashEquivalentsAndShortTermInvestments : Option ℚ
deriving DecidableEq

/-- One row of the annual cash-flow series. -/
structure AnnualCashFlowPoint where
  date : String
  operatingCashFlow : Option ℚ
  capitalExpenditure : Option ℚ
  freeCashFlow : Option ℚ
deriving DecidableEq

/-- One row of the quarterly shares series. -/
structure QuarterlySharesPoint where
  date : String
  ordinarySharesNumber : Option ℚ
  shareIssued : Option ℚ
deriving DecidableEq

/-- One entry of the yearly dividend-yield series. -/
structure YieldYearPoint where
  year : ℤ
  yieldValue : ℚ
deriving DecidableEq

/-- The cached unit of data for one ticker (`TickerSnapshot`, lines 45-58). -/
structure TickerSnapshot where
  schemaVersion : ℕ
  ticker : String
  annualFinancials : List AnnualFinancialPoint
  annualBalanceSheet : List AnnualBalanceSheetPoint
  annualCashFlow : List AnnualCashFlowPoint
  quarterlyShares : List QuarterlySharesPoint
  operatingMargins : Option ℚ
  dividendYield : Option ℚ
  sharesOutstanding : Option ℚ
  currentPrice : Option ℚ
  marketCap : Option ℚ
  yearlyDividendYields : List YieldYearPoint
deriving DecidableEq

/-- Trend statistics over a numeric series (`GrowthStats`, lines 60-64).
`cagrPercent` is real-valued because it comes from a fractional power. -/
structure GrowthStats where
  positiveCount : ℕ
  intervals : ℕ
  cagrPercent : Option ℝ

/-- Result of the DCF valuation (`DcfResult`, lines 66-69). -/
structure DcfResult where
  intrinsicValuePerShare : Option ℝ
  upsidePercent : Option ℝ

/-- The derived per-ticker row (`CompounderRow`, lines 71-87). -/
structure CompounderRow where
  ticker : String
  revenueGrowth : GrowthStats
  netIncomeGrowth : GrowthStats
  epsGrowth : GrowthStats
  roicPercent : Option ℚ
  latestFcf : Option ℚ
  fcfGrowthPercent : Option ℝ
  sharesChange3yPercent : Option ℚ
  operatingMarginPercent : Option ℚ
  currentYieldPercent : Option ℚ
  avgYield5yPercent : Option ℚ
  yieldVs5yAvgPercent : Option ℚ
  dcfIntrinsicValuePerShare : Option ℝ
  dcfUpsidePercent : Option ℝ
  carlsonQualityScore : ℤ

/-- The filter thresholds read by `evaluateCarlsonFilters` out of `CliOptions`
(lines 89-102); the remaining CLI fields (market, paths, output format, ...)
are never read by the functions verified here. -/
structure CliOptions where
  minRoic : ℚ
  minOperatingMargin : ℚ
  minBuybackPercent : ℚ

/-- Per-criterion outcome of the Carlson filters (`FilterEvaluation`,
lines 104-113). -/
structure FilterEvaluation where
  pass : Bool
  revenuePass : Bool
  netIncomePass : Bool
  roicPass : Bool
  buybackPass : Bool
  marginPass : Bool
  revenueRequired : ℤ
  netIncomeRequired : ℤ

/-! ### GrowthAnalyzer (`growthStats`, lines 597-618) -/

/-- The counting loop of `growthStats` (lines 603-608): the number of
consecutive pairs whose later value strictly exceeds the earlier one. -/
def positiveCountList : List ℚ → ℕ
  | a :: b :: rest => (if a < b then 1 else 0) + positiveCountList (b :: rest)
  | _ => 0

/-- `growthStats(values)` (lines 597-618). -/
noncomputable def growthStats (values : List ℚ) : GrowthStats :=
  if values.length < 2 then ⟨0, 0, none⟩
  else
    let intervals := values.length - 1
    let first := values.headD 0
    let last := values.getLastD 0
    ⟨positiveCountList values, intervals,
      if 0 < first ∧ 0 < last ∧ 0 < intervals then
        some ((Real.rpow ((last : ℝ) / (first : ℝ)) (1 / (intervals : ℝ)) - 1) * 100)
      else none⟩

/-! ### ValuationEngine -/

/-- `computeRoicPercent` (lines 620-643). -/
def computeRoicPercent (snapshot : TickerSnapshot) : Option ℚ :=
  match snapshot.annualBalanceSheet.getLast?,
        (snapshot.annualFinancials.getLast?).bind (fun f => f.netIncome) with
  | some latestBalance, some latestNetIncome =>
    match latestBalance.stockholdersEquity with
    | none => none
    | some equity =>
      let debt := ((latestBalance.longTermDebtAndCapitalLeaseObligation.orElse
        (fun _ => latestBalance.longTermDebt)).orElse
        (fun _ => latestBalance.totalDebt)).getD 0
      let cash := (latestBalance.cashCashEquivalentsAndShortTermInvestments.orElse
        (fun _ => latestBalance.cashAndCashEquivalents)).getD 0
      let investedCapital := equity + debt - cash
      if investedCapital ≤ 0 then none
      else some (latestNetIncome / investedCapital * 100)
  | _, _ => none

/-- Per-row body of the loop of `computeAnnualFcfSeries` (lines 646-659):
prefer the explicit `freeCashFlow` field, otherwise derive from operating cash
flow and capex honouring the capex sign convention; a row with neither is
skipped (`none`). -/
def fcfOfRow (row : AnnualCashFlowPoint) : Option ℚ :=
  match row.freeCashFlow with
  | some fcfFromField => some fcfFromField
  | none =>
    match row.operatingCashFlow, row.capitalExpenditure with
    | some ocf, some capex =>
      some (if capex < 0 then ocf + capex else ocf - capex)
    | _, _ => none

/-- `computeAnnualFcfSeries` (lines 645-661). -/
def computeAnnualFcfSeries (snapshot : TickerSnapshot) : List ℚ :=
  snapshot.annualCashFlow.filterMap fcfOfRow

/-- The annual diluted-average-shares fallback of `computeSharesChange3y`
(lines 676-686). -/
def annualSharesFallback (snapshot : TickerSnapshot) : Option ℚ :=
  let annualShareSeries :=
    (snapshot.annualFinancials.filterMap
      (fun f => f.dilutedAverageShares)).filter (fun v => 0 < v)
  if 4 ≤ annualShareSeries.length then
    let latest := annualShareSeries.getLastD 0
    let threeYearsAgo := annualShareSeries.getD (annualShareSeries.length - 4) 0
    if 0 < threeYearsAgo then some ((latest / threeYearsAgo - 1) * 100)
    else none
  else none

/-- `computeSharesChange3y` (lines 663-689). -/
def computeSharesChange3y (snapshot : TickerSnapshot) : Option ℚ :=
  let quarterlySeries :=
    (snapshot.quarterlyShares.filterMap
      (fun q => q.ordinarySharesNumber.orElse (fun _ => q.shareIssued))).filter
      (fun v => 0 < v)
  if 13 ≤ quarterlySeries.length then
    let latest := quarterlySeries.getLastD 0
    let threeYearsAgo := quarterlySeries.getD (quarterlySeries.length - 13) 0
    if 0 < threeYearsAgo then some ((latest / threeYearsAgo - 1) * 100)
    else annualSharesFallback snapshot
  else annualSharesFallback snapshot

/-- `computeOperatingMarginPercent` (lines 691-695): a raw value `≤ 1` is
taken as a fraction and scaled by 100, a value `> 1` as already a percent. -/
def computeOperatingMarginPercent (snapshot : TickerSnapshot) : Option ℚ :=
  match snapshot.operatingMargins with
  | none => none
  | some value => some (if value ≤ 1 then value * 100 else value)

/-- Result triple of `computeYieldMetrics` (lines 697-721). -/
structure YieldMetrics where
  currentYieldPercent : Option ℚ
  avgYield5yPercent : Option ℚ
  yieldVs5yAvgPercent : Option ℚ

/-- `computeYieldMetrics` (lines 697-721). -/
def computeYieldMetrics (snapshot : TickerSnapshot) : YieldMetrics :=
  let currentYieldPercent :=
    match snapshot.dividendYield with
    | some y => some (if y ≤ 1 then y * 100 else y)
    | none => none
  let yields :=
    (snapshot.yearlyDividendYields.map (fun x => x.yieldValue)).filter
      (fun x => 0 ≤ x)
  let avgYield5yPercent :=
    if yields.length = 0 then none
    else some (yields.sum / (yields.length : ℚ) * 100)
  let yieldVs5yAvgPercent :=
    match currentYieldPercent, avgYield5yPercent with
    | some c, some a => some (c - a)
    | _, _ => none
  ⟨currentYieldPercent, avgYield5yPercent, yieldVs5yAvgPercent⟩

/-- The shares-outstanding figure used by `computeDcf` (lines 726-729): the
reported scalar, else the latest quarterly `ordinarySharesNumber`, else the
latest quarterly `shareIssued`. -/
def dcfSharesOutstanding (snapshot : TickerSnapshot) : Option ℚ :=
  (snapshot.sharesOutstanding.orElse
    (fun _ => (snapshot.quarterlyShares.getLast?).bind
      (fun q => q.ordinarySharesNumber))).orElse
    (fun _ => (snapshot.quarterlyShares.getLast?).bind (fun q => q.shareIssued))

/-- The trailing positive FCF points used for the DCF growth assumption
(line 742): `fcfSeries.slice(-3).filter((v) => v > 0)`. -/
def dcfTrailing (fcfSeries : List ℚ) : List ℚ :=
  (sliceLast 3 fcfSeries).filter (fun v => 0 < v)

/-- The clamped growth rate used by `computeDcf` for the 10-year projection
(lines 742-750): CAGR of the trailing up to 3 positive FCF points when at
least two exist, else a default 4%, clamped to [-5%, 20%]. -/
noncomputable def dcfGrowth (fcfSeries : List ℚ) : ℝ :=
  let trailing := dcfTrailing fcfSeries
  let raw : ℝ :=
    if 2 ≤ trailing.length then
      Real.rpow ((trailing.getLastD 0 : ℝ) / (trailing.headD 0 : ℝ))
        (1 / ((trailing.length - 1 : ℕ) : ℝ)) - 1
    else 0.04
  clamp raw (-0.05) 0.20

/-- `computeDcf` (lines 723-778). -/
noncomputable def computeDcf (snapshot : TickerSnapshot) (fcfSeries : List ℚ) :
    DcfResult :=
  if fcfSeries.length < 2 then ⟨none, none⟩
  else
    let latestFcf := fcfSeries.getLastD 0
    match dcfSharesOutstanding snapshot with
    | none => ⟨none, none⟩
    | some sharesOutstanding =>
      if latestFcf ≤ 0 ∨ sharesOutstanding ≤ 0 then ⟨none, none⟩
      else
        let growth := dcfGrowth fcfSeries
        let discountRate : ℝ := 0.10
        let terminalGrowth : ℝ := 0.025
        let pv : ℝ := Finset.sum (Finset.range 10)
          (fun k => (latestFcf : ℝ) * (1 + growth) ^ (k + 1) /
            (1 + discountRate) ^ (k + 1))
        let projectedFcf : ℝ := (latestFcf : ℝ) * (1 + growth) ^ 10
        let terminalValue :=
          projectedFcf * (1 + terminalGrowth) /
            max 0.0001 (discountRate - terminalGrowth)
        let discountedTerminal := terminalValue / (1 + discountRate) ^ 10
        let intrinsicEquityValue := pv + discountedTerminal
        let intrinsicValuePerShare := intrinsicEquityValue / (sharesOutstanding : ℝ)
        if intrinsicValuePerShare ≤ 0 then ⟨none, none⟩
        else
          ⟨some intrinsicValuePerShare,
            match snapshot.currentPrice with
            | some currentPrice =>
              if 0 < currentPrice then
                some ((intrinsicValuePerShare / (currentPrice : ℝ) - 1) * 100)
              else none
            | none => none⟩

/-! ### QualityScorer (`computeCarlsonScore`, lines 841-882) -/

/-- `normalizedGrowthScore` (lines 879-882), as a rational. -/
def normalizedGrowthScore (stats : GrowthStats) (weight : ℚ) : ℚ :=
  if stats.intervals = 0 then 0
  else ((stats.positiveCount : ℚ) / (stats.intervals : ℚ)) * weight

/-- Input record of `computeCarlsonScore` (lines 841-850). -/
structure CarlsonScoreInput where
  revenueGrowth : GrowthStats
  netIncomeGrowth : GrowthStats
  epsGrowth : GrowthStats
  roicPercent : Option ℚ
  latestFcf : Option ℚ
  fcfGrowthPercent : Option ℝ
  sharesChange3yPercent : Option ℚ
  operatingMarginPercent : Option ℚ

/-- `computeCarlsonScore` (lines 841-877): weighted component sum, rounded and
clamped to [1, 100]. -/
noncomputable def computeCarlsonScore (input : CarlsonScoreInput) : ℤ :=
  let score : ℝ :=
    ((normalizedGrowthScore input.revenueGrowth 20 : ℚ) : ℝ) +
    ((normalizedGrowthScore input.netIncomeGrowth 20 : ℚ) : ℝ) +
    ((normalizedGrowthScore input.epsGrowth 10 : ℚ) : ℝ) +
    (match input.roicPercent with
     | some r => ((clamp ((r - 5) / 20) 0 1 : ℚ) : ℝ) * 20
     | none => 0) +
    (match input.latestFcf with
     | some f => if 0 < f then 5 else 0
     | none => 0) +
    (match input.fcfGrowthPercent with
     | some g => clamp ((g + 5) / 20) 0 1 * 5
     | none => 0) +
    (match input.sharesChange3yPercent with
     | some c => ((clamp (-c / 8) 0 1 : ℚ) : ℝ) * 10
     | none => 0) +
    (match input.operatingMarginPercent with
     | some m => ((clamp ((m - 10) / 20) 0 1 : ℚ) : ℝ) * 10
     | none => 0)
  clamp (round score) 1 100

/-! ### Row derivation (`buildRow`, lines 784-839) -/

/-- `buildRow` (lines 784-839). -/
noncomputable def buildRow (snapshot : TickerSnapshot) : CompounderRow :=
  let revenueSeries := sliceLast 6
    ((snapshot.annualFinancials.filterMap (fun f => f.totalRevenue)).filter
      (fun v => 0 < v))
  let netIncomeSeries := sliceLast 6
    (snapshot.annualFinancials.filterMap (fun f => f.netIncome))
  let epsSeries := sliceLast 6
    (snapshot.annualFinancials.filterMap
      (fun f => f.dilutedEPS.orElse (fun _ => f.basicEPS)))
  let revenueGrowth := growthStats revenueSeries
  let netIncomeGrowth := growthStats netIncomeSeries
  let epsGrowth := growthStats epsSeries
  let roicPercent := computeRoicPercent snapshot
  let fcfSeries := computeAnnualFcfSeries snapshot
  let latestFcf := fcfSeries.getLast?
  let fcfGrowth := growthStats (sliceLast 4 fcfSeries)
  let sharesChange3yPercent := computeSharesChange3y snapshot
  let operatingMarginPercent := computeOperatingMarginPercent snapshot
  let yieldMetrics := computeYieldMetrics snapshot
  let dcf := computeDcf snapshot fcfSeries
  let carlsonQualityScore := computeCarlsonScore
    ⟨revenueGrowth, netIncomeGrowth, epsGrowth, roicPercent, latestFcf,
      fcfGrowth.cagrPercent, sharesChange3yPercent, operatingMarginPercent⟩
  ⟨snapshot.ticker, revenueGrowth, netIncomeGrowth, epsGrowth, roicPercent,
    latestFcf, fcfGrowth.cagrPercent, sharesChange3yPercent,
    operatingMarginPercent, yieldMetrics.currentYieldPercent,
    yieldMetrics.avgYield5yPercent, yieldMetrics.yieldVs5yAvgPercent,
    dcf.intrinsicValuePerShare, dcf.upsidePercent, carlsonQualityScore⟩

/-! ### FilterEvaluator (`evaluateCarlsonFilters`, lines 884-915) -/

/-- The 80%-of-intervals requirement (lines 888-889):
`Math.max(1, Math.round(intervals * 0.8))`. -/
def requiredFromIntervals (intervals : ℕ) : ℤ :=
  max 1 (round ((intervals : ℚ) * (4 / 5)))

/-- `evaluateCarlsonFilters` (lines 884-915). -/
def evaluateCarlsonFilters (row : CompounderRow) (options : CliOptions) :
    FilterEvaluation :=
  let revenueRequired := requiredFromIntervals row.revenueGrowth.intervals
  let netIncomeRequired := requiredFromIntervals row.netIncomeGrowth.intervals
  let revenuePass : Bool :=
    decide (3 ≤ row.revenueGrowth.intervals) &&
    decide (revenueRequired ≤ (row.revenueGrowth.positiveCount : ℤ))
  let netIncomePass : Bool :=
    decide (3 ≤ row.netIncomeGrowth.intervals) &&
    decide (netIncomeRequired ≤ (row.netIncomeGrowth.positiveCount : ℤ))
  let roicPass : Bool :=
    match row.roicPercent with
    | some r => decide (options.minRoic < r)
    | none => false
  let buybackPass : Bool :=
    match row.sharesChange3yPercent with
    | some c => decide (c ≤ -|options.minBuybackPercent|)
    | none => false
  let marginPass : Bool :=
    match row.operatingMarginPercent with
    | some m => decide (options.minOperatingMargin < m)
    | none => false
  ⟨revenuePass && netIncomePass && roicPass && buybackPass && marginPass,
    revenuePass, netIncomePass, roicPass, buybackPass, marginPass,
    revenueRequired, netIncomeRequired⟩

/-! ### MetricsDeriver: dedupe and sort (lines 433-443)

Time-series rows are modelled as `(date, payload)` pairs; the JavaScript
comparator `a.date.localeCompare(b.date)` is modelled by lexicographic string
order.  A JavaScript `Map` keeps the first-insertion position of a key and
overwrites its value in place; `mapSet` mirrors that. -/

/-- `sortByDateAsc` (lines 433-435). -/
def sortByDateAsc {α : Type} (rows : List (String × α)) : List (String × α) :=
  rows.mergeSort (fun a b => decide (a.1 ≤ b.1))

/-- One `map.set(row.date, row)` step of `dedupeByDate` (line 440):
replace the value at an existing key in place, else append the new entry. -/
def mapSet {α : Type} (m : List (String × α)) (k : String) (v : α) :
    List (String × α) :=
  if m.any (fun p => decide (p.1 = k)) then
    m.map (fun p => if p.1 = k then (k, v) else p)
  else m ++ [(k, v)]

/-- The insertion loop of `dedupeByDate` (lines 438-441). -/
def buildDateMap {α : Type} (rows : List (String × α)) : List (String × α) :=
  rows.foldl (fun m row => mapSet m row.1 row.2) []

/-- `dedupeByDate` (lines 437-443): last occurrence of each date wins, output
sorted ascending by date. -/
def dedupeByDate {α : Type} (rows : List (String × α)) : List (String × α) :=
  sortByDateAsc (buildDateMap rows)

/-! ### SnapshotCache (`CompounderDataCache.get`, lines 209-227, and the
schema-version check of `fetchTickerSnapshot`, line 285)

The sql.js table keyed by ticker is modelled as an association list; a cache
whose backing database is unavailable (`if (!this.db) return null`, line 211)
is modelled by `none`.  Timestamps are integers (milliseconds). -/

/-- One stored cache row: payload plus its fetch timestamp. -/
structure CacheRecord where
  payload : TickerSnapshot
  fetchedAt : ℤ

/-- `CompounderDataCache.get` (lines 209-227): absent when the database is
unavailable, when no row matches, or when the record is older than the TTL
(`age > ttlMs`, line 222). -/
def cacheGet (db : Option (List (String × CacheRecord))) (ticker : String)
    (now ttlMs : ℤ) : Option TickerSnapshot :=
  match db with
  | none => none
  | some rows =>
    match rows.find? (fun p => decide (p.1 = ticker)) with
    | none => none
    | some p => if ttlMs < now - p.2.fetchedAt then none else some p.2.payload

/-- The cache-lookup path of `fetchTickerSnapshot` (lines 284-285): a cached
snapshot is used only when present and `schemaVersion === 1`. -/
def cachedSnapshotLookup (db : Option (List (String × CacheRecord)))
    (ticker : String) (now ttlMs : ℤ) : Option TickerSnapshot :=
  match cacheGet db ticker now ttlMs with
  | some s => if s.schemaVersion = 1 then some s else none
  | none => none

/-! ### RetryingFetcher (`StockDataFetcher.fetchWithRetry`, lines 294-315)

The outcome of attempt `i` (the `fetchFromApi` call) is an oracle
`ℕ → Option α`: `some` for success, `none` for a thrown error.  The loop
`while (attempt <= maxRetries)` is modelled with explicit fuel
`maxRetries + 1`, which dominates the number of iterations. -/

/-- The retry loop of `fetchWithRetry`: try `f attempt`; on success return it;
on failure return `none` when `attempt >= maxRetries` (the `isLast` check,
line 302), else move to the next attempt. -/
def fetchAttemptLoop {α : Type} (f : ℕ → Option α) (maxRetries : ℕ) :
    ℕ → ℕ → Option α
  | 0, _ => none
  | fuel + 1, attempt =>
    match f attempt with
    | some s => some s
    | none =>
      if maxRetries ≤ attempt then none
      else fetchAttemptLoop f maxRetries fuel (attempt + 1)

/-- `fetchWithRetry` (lines 294-315). -/
def fetchWithRetry {α : Type} (f : ℕ → Option α) (maxRetries : ℕ) : Option α :=
  fetchAttemptLoop f maxRetries (maxRetries + 1) 0

/-- Number of calls to `fetchFromApi` the loop performs. -/
def fetchAttemptCountLoop {α : Type} (f : ℕ → Option α) (maxRetries : ℕ) :
    ℕ → ℕ → ℕ
  | 0, _ => 0
  | fuel + 1, attempt =>
    match f attempt with
    | some _ => 1
    | none =>
      if maxRetries ≤ attempt then 1
      else 1 + fetchAttemptCountLoop f maxRetries fuel (attempt + 1)

/-- Total number of attempts (first call plus retries) made by
`fetchWithRetry`. -/
def attemptsMade {α : Type} (f : ℕ → Option α) (maxRetries : ℕ) : ℕ :=
  fetchAttemptCountLoop f maxRetries (maxRetries + 1) 0

/-- The backoff delay before a retry (lines 307-309):
`Math.round(requestDelayMs * 2^attempt + Math.random() * 250)`, with the
random draw `Math.random() * 250` passed in as `jitter`. -/
def backoffDelay (requestDelayMs : ℚ) (attempt : ℕ) (jitter : ℚ) : ℤ :=
  round (requestDelayMs * 2 ^ attempt + jitter)

/-! ### ConcurrencyLimiter (`mapWithConcurrency`, lines 1145-1161)

JavaScript is single-threaded: between two `await` points a runner executes
atomically, so the check `nextIndex < items.length` and the claim
`nextIndex++` happen as one step.  The pool is modelled as a transition
system: each runner is `idle` (at the loop head), `busy i` (awaiting
`worker(items[i], i)`), or `done` (its loop exited).  `processed` collects
the indices whose worker invocation has completed. -/

/-- Status of one runner of `mapWithConcurrency`. -/
inductive WorkerStatus where
  | idle : WorkerStatus
  | busy : ℕ → WorkerStatus
  | done : WorkerStatus
deriving DecidableEq

/-- Global state of the worker pool: the shared cursor, the completed
indices, and the multiset of runner statuses. -/
structure PoolState where
  next : ℕ
  processed : Multiset ℕ
  workers : Multiset WorkerStatus

/-- Interleaving semantics of `mapWithConcurrency` over `N` items. -/
inductive PoolStep (N : ℕ) : PoolState → PoolState → Prop where
  | claim (s : PoolState) (h : WorkerStatus.idle ∈ s.workers) (hlt : s.next < N) :
      PoolStep N s
        ⟨s.next + 1, s.processed,
          WorkerStatus.busy s.next ::ₘ s.workers.erase WorkerStatus.idle⟩
  | exitLoop (s : PoolState) (h : WorkerStatus.idle ∈ s.workers) (hge : N ≤ s.next) :
      PoolStep N s
        ⟨s.next, s.processed,
          WorkerStatus.done ::ₘ s.workers.erase WorkerStatus.idle⟩
  | finish (s : PoolState) (i : ℕ) (h : WorkerStatus.busy i ∈ s.workers) :
      PoolStep N s
        ⟨s.next, i ::ₘ s.processed,
          WorkerStatus.idle ::ₘ s.workers.erase (WorkerStatus.busy i)⟩

/-- Initial pool state: cursor 0, nothing processed,
`Math.max(1, concurrency)` runners at their loop heads (line 1151). -/
def initPool (concurrency : ℕ) : PoolState :=
  ⟨0, 0, Multiset.replicate (max 1 concurrency) WorkerStatus.idle⟩

/-- The pool has returned (`Promise.all` resolved): every runner's loop has
exited. -/
def PoolDone (s : PoolState) : Prop :=
  ∀ w ∈ s.workers, w = WorkerStatus.done

/-- Indices currently claimed but not yet completed. -/
def busyIndices (ws : Multiset WorkerStatus) : Multiset ℕ :=
  ws.filterMap (fun w =>
    match w with
    | WorkerStatus.busy i => some i
    | _ => none)

/-- Invariant of the pool: the cursor never passes `N`, the claimed indices
are exactly `0..next-1` (each exactly once), and once some runner has exited
the cursor has reached `N`. -/
def PoolInv (N : ℕ) (s : PoolState) : Prop :=
  s.next ≤ N ∧
  s.processed + busyIndices s.workers = Multiset.range s.next ∧
  (WorkerStatus.done ∈ s.workers → s.next = N)

/-! ### Concrete inputs used by the scenario claims -/

/-- The CLI defaults of `parseArgs` (lines 1163-1175): `minRoic 15`,
`minOperatingMargin 20`, `minBuybackPercent 2`. -/
def defaultCliOptions : CliOptions := ⟨15, 20, 2⟩

/-- The end-to-end scenario snapshot: annual revenue [100,110,121,133] and
net income [10,-5,12,15], nothing else. -/
def scenarioSnapshot : TickerSnapshot :=
  ⟨1, "TEST",
    [⟨"2020-12-31", some 100, some 10, none, none, none⟩,
     ⟨"2021-12-31", some 110, some (-5), none, none, none⟩,
     ⟨"2022-12-31", some 121, some 12, none, none, none⟩,
     ⟨"2023-12-31", some 133, some 15, none, none, none⟩],
    [], [], [], none, none, none, none, none, []⟩

/-- A row sitting exactly on the filter thresholds of `defaultCliOptions`:
ROIC 15, operating margin 20, 3-year share change -2. -/
def boundaryRow : CompounderRow :=
  ⟨"EDGE", ⟨0, 0, none⟩, ⟨0, 0, none⟩, ⟨0, 0, none⟩, some 15, none, none,
    some (-2), some 20, none, none, none, none, none, 50⟩

/-- Cash-flow rows exercising the three FCF derivation cases: explicit field,
negative-capex convention, positive-capex convention. -/
def fcfSnapshot : TickerSnapshot :=
  ⟨1, "FCF", [], [],
    [⟨"2021-12-31", some 999, some 999, some 120⟩,
     ⟨"2022-12-31", some 200, some (-50), none⟩,
     ⟨"2023-12-31", some 200, some 50, none⟩],
    [], none, none, none, none, none, []⟩

/-- A snapshot whose scalar operating margin and dividend yield are exactly 1
(the boundary of the unit heuristic). -/
def unitBoundarySnapshot : TickerSnapshot :=
  ⟨1, "UNIT", [], [], [], [], some 1, some 1, none, none, none, []⟩

/-- A snapshot with no data at all (fails every DCF precondition). -/
def emptySnapshot : TickerSnapshot :=
  ⟨1, "EMPTY", [], [], [], [], none, none, none, none, none, []⟩

/-- A snapshot with a reported shares-outstanding figure (satisfies the DCF
shares precondition). -/
def dcfWitnessSnapshot : TickerSnapshot :=
  ⟨1, "DCF", [], [], [], [], none, none, some 1000, none, none, []⟩

/-! ## Theorems -/

/-- `Math.round(3 * 0.8) = Math.round(2.4) = 2`: for three intervals the
80%-rule requires two rising pairs, not three. -/
theorem requiredFromIntervals_three : requiredFromIntervals 3 = 2 := by
  norm_num [requiredFromIntervals, round_eq]

theorem scenario_netIncomeRequired_eq_two :
    (evaluateCarlsonFilters (buildRow scenarioSnapshot)
      defaultCliOptions).netIncomeRequired = 2 := by
  have h3 : (buildRow scenarioSnapshot).netIncomeGrowth.intervals = 3 := by decide
  simp [evaluateCarlsonFilters, h3, requiredFromIntervals_three]

theorem scenario_netIncomePass_eq_true :
    (evaluateCarlsonFilters (buildRow scenarioSnapshot)
      defaultCliOptions).netIncomePass = true := by
  have h3 : (buildRow scenarioSnapshot).netIncomeGrowth.intervals = 3 := by decide
  have h2 : (buildRow scenarioSnapshot).netIncomeGrowth.positiveCount = 2 := by
    decide
  simp [evaluateCarlsonFilters, h3, h2, requiredFromIntervals_three]

/-- C1: the end-to-end scenario claim is false as stated.  The growth
statistics are as claimed, but for 3 intervals the required count is
`max(1, round(2.4)) = 2`, not 3, so with 2 rising net-income pairs the
net-income criterion passes rather than fails. -/
theorem scenario_claim_false :
    ¬((buildRow scenarioSnapshot).revenueGrowth.positiveCount = 3 ∧
      (buildRow scenarioSnapshot).revenueGrowth.intervals = 3 ∧
      (buildRow scenarioSnapshot).netIncomeGrowth.positiveCount = 2 ∧
      (buildRow scenarioSnapshot).netIncomeGrowth.intervals = 3 ∧
      (evaluateCarlsonFilters (buildRow scenarioSnapshot)
        defaultCliOptions).netIncomeRequired = 3 ∧
      (evaluateCarlsonFilters (buildRow scenarioSnapshot)
        defaultCliOptions).netIncomePass = false) := by
  intro h
  have h5 := h.2.2.2.2.1
  have := scenario_netIncomeRequired_eq_two.symm.trans h5
  norm_num at this

/-- C1 (amended): the scenario snapshot yields
`revenueGrowth = {positiveCount: 3, intervals: 3}` and
`netIncomeGrowth = {positiveCount: 2, intervals: 3}`; under the default
80%-of-intervals rule the required count for 3 intervals is
`max(1, round(2.4)) = 2`, so the net-income criterion passes (2 ≥ 2), as does
the revenue criterion (3 ≥ 2). -/
theorem scenario_evaluation :
    (buildRow scenarioSnapshot).revenueGrowth.positiveCount = 3 ∧
    (buildRow scenarioSnapshot).revenueGrowth.intervals = 3 ∧
    (buildRow scenarioSnapshot).netIncomeGrowth.positiveCount = 2 ∧
    (buildRow scenarioSnapshot).netIncomeGrowth.intervals = 3 ∧
    (evaluateCarlsonFilters (buildRow scenarioSnapshot)
      defaultCliOptions).netIncomeRequired = 2 ∧
    (evaluateCarlsonFilters (buildRow scenarioSnapshot)
      defaultCliOptions).netIncomePass = true ∧
    (evaluateCarlsonFilters (buildRow scenarioSnapshot)
      defaultCliOptions).revenuePass = true := by
  refine ⟨by decide, by decide, by decide, by decide,
    scenario_netIncomeRequired_eq_two, scenario_netIncomePass_eq_true, ?_⟩
  have h3 : (buildRow scenarioSnapshot).revenueGrowth.intervals = 3 := by decide
  have h2 : (buildRow scenarioSnapshot).revenueGrowth.positiveCount = 3 := by
    decide
  simp [evaluateCarlsonFilters, h3, h2, requiredFromIntervals_three]

/-- C2: filter boundary behaviour for every row and thresholds.  ROIC exactly
equal to the configured minimum fails (strict `>` required), operating margin
exactly equal to the configured minimum fails likewise, and a 3-year share
change exactly equal to `-|minBuybackPercent|` passes (non-strict `<=`). -/
theorem evaluateCarlsonFilters_boundary (row : CompounderRow)
    (options : CliOptions) :
    (row.roicPercent = some options.minRoic →
      (evaluateCarlsonFilters row options).roicPass = false) ∧
    (row.operatingMarginPercent = some options.minOperatingMargin →
      (evaluateCarlsonFilters row options).marginPass = false) ∧
    (row.sharesChange3yPercent = some (-|options.minBuybackPercent|) →
      (evaluateCarlsonFilters row options).buybackPass = true) := by
  refine ⟨fun h => ?_, fun h => ?_, fun h => ?_⟩ <;>
    simp [evaluateCarlsonFilters, h]

theorem evaluateCarlsonFilters_boundary_witness :
    (evaluateCarlsonFilters boundaryRow defaultCliOptions).roicPass = false ∧
    (evaluateCarlsonFilters boundaryRow defaultCliOptions).marginPass = false ∧
    (evaluateCarlsonFilters boundaryRow defaultCliOptions).buybackPass = true :=
  ⟨(evaluateCarlsonFilters_boundary boundaryRow defaultCliOptions).1 rfl,
   (evaluateCarlsonFilters_boundary boundaryRow defaultCliOptions).2.1 rfl,
   (evaluateCarlsonFilters_boundary boundaryRow defaultCliOptions).2.2
     (by norm_num [boundaryRow, defaultCliOptions])⟩

/-- C4: free-cash-flow derivation.  A row with no explicit `freeCashFlow` but
with both operating cash flow and capex yields `ocf + capex` when the capex is
reported negative (outflow convention) and `ocf - capex` when reported
positive; a row with an explicit `freeCashFlow` uses it directly; on the
concrete snapshot both conventions give 150 from `ocf = 200`, `|capex| = 50`. -/
theorem computeAnnualFcfSeries_spec :
    (∀ (row : AnnualCashFlowPoint) (a c : ℚ),
      row.freeCashFlow = none → row.operatingCashFlow = some a →
      row.capitalExpenditure = some c →
      (c < 0 → fcfOfRow row = some (a + c)) ∧
      (0 < c → fcfOfRow row = some (a - c))) ∧
    (∀ (row : AnnualCashFlowPoint) (f : ℚ),
      row.freeCashFlow = some f → fcfOfRow row = some f) ∧
    computeAnnualFcfSeries fcfSnapshot = [120, 150, 150] := by
  refine ⟨fun row a c h1 h2 h3 => ⟨fun hc => ?_, fun hc => ?_⟩,
    fun row f h => ?_, ?_⟩
  · simp [fcfOfRow, h1, h2, h3, if_pos hc]
  · simp [fcfOfRow, h1, h2, h3, if_neg (not_lt.mpr (le_of_lt hc))]
  · simp [fcfOfRow, h]
  · simp only [computeAnnualFcfSeries, fcfSnapshot, List.filterMap_cons,
      List.filterMap_nil, fcfOfRow]
    norm_num

theorem computeAnnualFcfSeries_spec_witness :
    fcfOfRow ⟨"2022-12-31", some 200, some (-50), none⟩ = some (200 + (-50)) ∧
    fcfOfRow ⟨"2023-12-31", some 200, some 50, none⟩ = some (200 - 50) :=
  ⟨(computeAnnualFcfSeries_spec.1 _ 200 (-50) rfl rfl rfl).1 (by norm_num),
   (computeAnnualFcfSeries_spec.1 _ 200 50 rfl rfl rfl).2 (by norm_num)⟩

/-- C10: the undocumented unit heuristic of the derived operating-margin and
current dividend-yield percents: a raw scalar `≤ 1` is interpreted as a
fraction and multiplied by 100, a raw scalar `> 1` is returned unchanged, and
a raw value of exactly 1 becomes 100%. -/
theorem unitHeuristic_spec (snapshot : TickerSnapshot) (v : ℚ) :
    (snapshot.operatingMargins = some v →
      (v ≤ 1 → computeOperatingMarginPercent snapshot = some (v * 100)) ∧
      (1 < v → computeOperatingMarginPercent snapshot = some v)) ∧
    (snapshot.operatingMargins = some 1 →
      computeOperatingMarginPercent snapshot = some 100) ∧
    (snapshot.dividendYield = some v →
      ((computeYieldMetrics snapshot).currentYieldPercent =
        some (if v ≤ 1 then v * 100 else v))) ∧
    (snapshot.dividendYield = some 1 →
      (computeYieldMetrics snapshot).currentYieldPercent = some 100) := by
  refine ⟨fun h => ⟨fun hle => ?_, fun hgt => ?_⟩, fun h => ?_, fun h => ?_,
    fun h => ?_⟩
  · simp [computeOperatingMarginPercent, h, if_pos hle]
  · simp [computeOperatingMarginPercent, h, if_neg (not_le.mpr hgt)]
  · norm_num [computeOperatingMarginPercent, h]
  · simp [computeYieldMetrics, h]
  · norm_num [computeYieldMetrics, h]

theorem unitHeuristic_spec_witness :
    computeOperatingMarginPercent unitBoundarySnapshot = some 100 ∧
    (computeYieldMetrics unitBoundarySnapshot).currentYieldPercent = some 100 :=
  ⟨(unitHeuristic_spec unitBoundarySnapshot 1).2.1 rfl,
   (unitHeuristic_spec unitBoundarySnapshot 1).2.2.2 rfl⟩

/-- The counting loop of `growthStats` computes exactly the number of indices
`i < length - 1` whose later value strictly exceeds the earlier one. -/
theorem positiveCountList_eq_count : ∀ values : List ℚ,
    positiveCountList values =
      ((List.range (values.length - 1)).filter
        (fun i => decide (values.getD i 0 < values.getD (i + 1) 0))).length
  | [] => by simp [positiveCountList]
  | [a] => by simp [positiveCountList]
  | a :: b :: rest => by
    have ih := positiveCountList_eq_count (b :: rest)
    simp only [positiveCountList, ih]
    simp only [List.length_cons, Nat.add_sub_cancel, List.range_succ_eq_map,
      List.filter_cons, List.getD_cons_zero, List.getD_cons_succ]
    rw [List.filter_map]
    simp only [List.length_map, Function.comp_def, List.getD_cons_succ]
    by_cases hab : a < b
    · simp [hab]
      omega
    · simp [hab]

/-- C3: `growthStats` on a series shorter than 2 returns zero counts and no
CAGR; otherwise `intervals = length - 1`, `positiveCount` counts the strictly
increasing consecutive pairs, and the CAGR
`((last/first)^(1/intervals) - 1) * 100` is present exactly when both the
first and last values are strictly positive (so a fractional power is never
taken on a non-positive base). -/
theorem growthStats_spec (values : List ℚ) :
    (values.length < 2 → growthStats values = ⟨0, 0, none⟩) ∧
    (2 ≤ values.length →
      (growthStats values).intervals = values.length - 1 ∧
      (growthStats values).positiveCount =
        ((List.range (values.length - 1)).filter
          (fun i => decide (values.getD i 0 < values.getD (i + 1) 0))).length ∧
      ((growthStats values).cagrPercent.isSome = true ↔
        (0 < values.headD 0 ∧ 0 < values.getLastD 0)) ∧
      (0 < values.headD 0 → 0 < values.getLastD 0 →
        (growthStats values).cagrPercent =
          some ((Real.rpow ((values.getLastD 0 : ℝ) / (values.headD 0 : ℝ))
            (1 / ((values.length - 1 : ℕ) : ℝ)) - 1) * 100))) := by
  constructor
  · intro h
    simp [growthStats, if_pos h]
  · intro h
    have hnot : ¬ values.length < 2 := not_lt.mpr h
    have hpos : 0 < values.length - 1 := by omega
    refine ⟨?_, ?_, ?_, ?_⟩
    · simp [growthStats, if_neg hnot]
    · simp [growthStats, if_neg hnot, positiveCountList_eq_count]
    · simp only [growthStats, if_neg hnot]
      split_ifs with hc
      · simp only [Option.isSome_some, true_iff]
        exact ⟨hc.1, hc.2.1⟩
      · simp only [Option.isSome_none, Bool.false_eq_true, false_iff]
        intro hcon
        exact hc ⟨hcon.1, hcon.2, hpos⟩
    · intro hf hl
      simp only [growthStats, if_neg hnot, if_pos (⟨hf, hl, hpos⟩ :
        0 < values.headD 0 ∧ 0 < values.getLastD 0 ∧ 0 < values.length - 1)]

theorem growthStats_spec_witness :
    growthStats ([] : List ℚ) = ⟨0, 0, none⟩ ∧
    (growthStats [1, 2, 4]).intervals = [(1 : ℚ), 2, 4].length - 1 :=
  ⟨(growthStats_spec []).1 (by decide),
   ((growthStats_spec [1, 2, 4]).2 (by decide)).1⟩

/-- C5: under the DCF preconditions, the growth rate `computeDcf` feeds into
the 10-year projection (`dcfGrowth`) always lies in [-5%, 20%]; when fewer
than two trailing positive FCF points exist the default 4% is used; a
trailing CAGR of 50% (series [100, 150]) is clamped to 20% and one of -30%
(series [100, 70]) to -5%; and whenever any precondition fails (fewer than 2
FCF points, latest FCF ≤ 0, or no positive shares figure) `computeDcf`
returns no intrinsic value. -/
theorem computeDcf_growth_spec (snapshot : TickerSnapshot) (fcfSeries : List ℚ)
    (h2 : 2 ≤ fcfSeries.length) (hpos : 0 < fcfSeries.getLastD 0)
    (hsh : ∃ sh, dcfSharesOutstanding snapshot = some sh ∧ 0 < sh) :
    dcfGrowth fcfSeries ∈ Set.Icc (-0.05 : ℝ) 0.20 ∧
    ((dcfTrailing fcfSeries).length < 2 → dcfGrowth fcfSeries = 0.04) ∧
    dcfGrowth [100, 150] = 0.20 ∧
    dcfGrowth [100, 70] = -0.05 ∧
    (∀ (snap2 : TickerSnapshot) (fcf2 : List ℚ),
      (fcf2.length < 2 ∨ fcf2.getLastD 0 ≤ 0 ∨ dcfSharesOutstanding snap2 = none ∨
        (∃ sh, dcfSharesOutstanding snap2 = some sh ∧ sh ≤ 0)) →
      computeDcf snap2 fcf2 = ⟨none, none⟩) := by
  refine ⟨?_, ?_, ?_, ?_, ?_⟩
  · constructor
    · exact le_max_left _ _
    · apply max_le
      · norm_num
      · exact min_le_left _ _
  · intro hlen
    have hnot : ¬ 2 ≤ (dcfTrailing fcfSeries).length := by omega
    simp only [dcfGrowth, if_neg hnot, clamp]
    norm_num
  · have htr : dcfTrailing [100, 150] = [100, 150] := by
      simp [dcfTrailing, sliceLast]
    simp only [dcfGrowth, htr]
    norm_num [clamp]
  · have htr : dcfTrailing [100, 70] = [100, 70] := by
      simp [dcfTrailing, sliceLast]
    simp only [dcfGrowth, htr]
    norm_num [clamp]
  · intro snap2 fcf2 hfail
    by_cases hl : fcf2.length < 2
    · simp [computeDcf, if_pos hl]
    · rcases hfail with hfail | hfail | hfail | hfail
      · exact absurd hfail hl
      · cases hshout : dcfSharesOutstanding snap2 with
        | none => simp [computeDcf, if_neg hl, hshout]
        | some sh =>
          simp only [computeDcf, if_neg hl, hshout]
          rw [if_pos (Or.inl hfail)]
      · simp [computeDcf, if_neg hl, hfail]
      · obtain ⟨sh, hshout, hsle⟩ := hfail
        simp only [computeDcf, if_neg hl, hshout]
        rw [if_pos (Or.inr hsle)]

theorem computeDcf_growth_spec_witness :
    dcfGrowth [100, 150] = 0.20 ∧ computeDcf emptySnapshot [] = ⟨none, none⟩ := by
  have h := computeDcf_growth_spec dcfWitnessSnapshot [100, 150] (by decide)
    (by decide) ⟨1000, rfl, by norm_num⟩
  exact ⟨h.2.2.1, h.2.2.2.2 emptySnapshot [] (Or.inl (by decide))⟩

/-- C6: the cache-lookup path returns absent in exactly these cases: no
record for the key, record older than the TTL, or outdated schema version;
and a cache whose backing store is unavailable (the `if (!this.db)` guard)
degrades to a miss instead of raising. -/
theorem cacheGet_spec (rows : List (String × CacheRecord)) (ticker : String)
    (now ttlMs : ℤ) :
    (cachedSnapshotLookup (some rows) ticker now ttlMs = none ↔
      (rows.find? (fun p => decide (p.1 = ticker)) = none ∨
       ∃ p, rows.find? (fun p => decide (p.1 = ticker)) = some p ∧
         (ttlMs < now - p.2.fetchedAt ∨ p.2.payload.schemaVersion ≠ 1))) ∧
    cachedSnapshotLookup none ticker now ttlMs = none := by
  refine ⟨?_, rfl⟩
  cases hfind : rows.find? (fun p => decide (p.1 = ticker)) with
  | none =>
    have hval : cachedSnapshotLookup (some rows) ticker now ttlMs = none := by
      simp only [cachedSnapshotLookup, cacheGet, hfind]
    rw [hval]
    exact iff_of_true rfl (Or.inl rfl)
  | some p =>
    by_cases httl : ttlMs < now - p.2.fetchedAt
    · have hval : cachedSnapshotLookup (some rows) ticker now ttlMs = none := by
        simp only [cachedSnapshotLookup, cacheGet, hfind, if_pos httl]
      rw [hval]
      exact iff_of_true rfl (Or.inr ⟨p, rfl, Or.inl httl⟩)
    · by_cases hver : p.2.payload.schemaVersion = 1
      · have hval : cachedSnapshotLookup (some rows) ticker now ttlMs =
            some p.2.payload := by
          simp only [cachedSnapshotLookup, cacheGet, hfind, if_neg httl, if_pos hver]
        rw [hval]
        refine iff_of_false (by simp) ?_
        rintro (h | ⟨q, hq, hd⟩)
        · exact Option.noConfusion h
        · cases Option.some.inj hq
          rcases hd with hd | hd
          · exact httl hd
          · exact hd hver
      · have hval : cachedSnapshotLookup (some rows) ticker now ttlMs = none := by
          simp only [cachedSnapshotLookup, cacheGet, hfind, if_neg httl, if_neg hver]
        rw [hval]
        exact iff_of_true rfl (Or.inr ⟨p, rfl, Or.inr hver⟩)

theorem cacheGet_spec_witness :
    cachedSnapshotLookup none "AAPL" 0 0 = none :=
  (cacheGet_spec [] "AAPL" 0 0).2

theorem fetchAttemptCountLoop_le {α : Type} (f : ℕ → Option α) (m : ℕ) :
    ∀ fuel attempt, fetchAttemptCountLoop f m fuel attempt ≤ fuel := by
  intro fuel
  induction fuel with
  | zero => intro attempt; simp [fetchAttemptCountLoop]
  | succ n ih =>
    intro attempt
    cases hf : f attempt with
    | some s => simp [fetchAttemptCountLoop, hf]
    | none =>
      simp only [fetchAttemptCountLoop, hf]
      by_cases hm : m ≤ attempt
      · simp [hm]
      · simp only [hm, if_false]
        have := ih (attempt + 1)
        omega

theorem fetchAttemptLoop_none {α : Type} (f : ℕ → Option α) (m : ℕ)
    (hfail : ∀ i, i ≤ m → f i = none) :
    ∀ fuel attempt, attempt ≤ m → fetchAttemptLoop f m fuel attempt = none := by
  intro fuel
  induction fuel with
  | zero => intro attempt _; rfl
  | succ n ih =>
    intro attempt hle
    simp only [fetchAttemptLoop, hfail attempt hle]
    by_cases hm : m ≤ attempt
    · simp [hm]
    · simp only [hm, if_false]
      exact ih (attempt + 1) (by omega)

/-- C7 (amended): `fetchWithRetry` makes at most `maxRetries + 1` attempts in
total (at most `maxRetries` after the first); when every attempt up to
`maxRetries` fails it returns `none` instead of raising; and the backoff
delay before retry attempt `i` is `round(baseDelay * 2^i + jitter)`, i.e.
`baseDelay * 2^i` plus the rounded jitter, which lies in [0, 250] when the
random draw lies in [0, 250). -/
theorem fetchWithRetry_spec {α : Type} (f : ℕ → Option α) (maxRetries : ℕ) :
    attemptsMade f maxRetries ≤ maxRetries + 1 ∧
    ((∀ i, i ≤ maxRetries → f i = none) → fetchWithRetry f maxRetries = none) ∧
    (∀ (base jitter : ℚ) (k : ℤ) (i : ℕ),
      base = (k : ℚ) → 0 ≤ jitter → jitter < 250 →
      backoffDelay base i jitter = k * 2 ^ i + round jitter ∧
      0 ≤ round jitter ∧ round jitter ≤ 250) := by
  refine ⟨fetchAttemptCountLoop_le f maxRetries (maxRetries + 1) 0,
    fun hfail => fetchAttemptLoop_none f maxRetries hfail (maxRetries + 1) 0
      (Nat.zero_le _), ?_⟩
  intro base jitter k i hbk h0 h250
  have hcast : base * 2 ^ i = ((k * 2 ^ i : ℤ) : ℚ) := by
    rw [hbk]; push_cast; ring
  refine ⟨?_, ?_, ?_⟩
  · rw [backoffDelay, hcast, round_int_add]
  · rw [round_eq]
    have : (0 : ℚ) ≤ jitter + 1 / 2 := by linarith
    exact Int.le_floor.mpr (by exact_mod_cast this)
  · rw [round_eq]
    have h1 : jitter + 1 / 2 ≤ 501 / 2 := by linarith
    have h2 := Int.floor_le_floor h1
    have h3 : (⌊(501 : ℚ) / 2⌋ : ℤ) = 250 := by norm_num
    omega

theorem backoffDelay_concrete : backoffDelay 250 0 (1248 / 5) = 500 := by
  norm_num [backoffDelay, round_eq]

/-- C7: the claim that the delay exactly equals `baseDelay * 2^i` plus a
jitter in `[0, jitterMax)` is false as stated: with `baseDelay = 250`,
attempt 0 and random draw 249.6 the code computes
`Math.round(250 + 249.6) = 500 = 250 + 250`, and 250 is not in `[0, 250)`. -/
theorem fetchWithRetry_delay_claim_false :
    ¬ ∃ j : ℚ, 0 ≤ j ∧ j < 250 ∧
      ((backoffDelay 250 0 (1248 / 5) : ℤ) : ℚ) = 250 * 2 ^ (0 : ℕ) + j := by
  rintro ⟨j, h0, h250, heq⟩
  rw [backoffDelay_concrete] at heq
  have : j = 250 := by push_cast at heq; linarith
  linarith

theorem fetchWithRetry_spec_witness :
    attemptsMade (fun _ => (none : Option ℕ)) 1 ≤ 1 + 1 ∧
    fetchWithRetry (fun _ => (none : Option ℕ)) 1 = none ∧
    backoffDelay 250 0 (1 / 2) = 250 * 2 ^ 0 + round ((1 : ℚ) / 2) := by
  have h := fetchWithRetry_spec (fun _ => (none : Option ℕ)) 1
  exact ⟨h.1, h.2.1 (fun i _ => rfl),
    (h.2.2 250 (1 / 2) 250 0 (by norm_num) (by norm_num) (by norm_num)).1⟩

variable {α : Type}

theorem keys_map_replace (m : List (String × α)) (k : String) (v : α) :
    (m.map (fun p => if p.1 = k then (k, v) else p)).map Prod.fst =
      m.map Prod.fst := by
  induction m with
  | nil => rfl
  | cons p t ih =>
    simp only [List.map_cons, ih, List.cons.injEq, and_true]
    by_cases h : p.1 = k
    · simp [if_pos h, h]
    · simp [if_neg h]

theorem keys_mapSet_nodup (m : List (String × α)) (k : String) (v : α)
    (hm : (m.map Prod.fst).Nodup) : ((mapSet m k v).map Prod.fst).Nodup := by
  by_cases hany : m.any (fun p => decide (p.1 = k)) = true
  · rw [mapSet, if_pos hany, keys_map_replace]
    exact hm
  · rw [mapSet, if_neg hany, List.map_append]
    simp only [List.map_cons, List.map_nil]
    rw [List.nodup_append]
    refine ⟨hm, List.nodup_singleton k, ?_⟩
    intro a ha hb
    simp only [List.any_eq_true, decide_eq_true_eq, not_exists] at hany
    simp only [List.mem_singleton] at hb
    simp only [List.mem_map] at ha
    obtain ⟨p, hp, rfl⟩ := ha
    exact hany p ⟨hp, hb⟩
  
theorem find?_replace_ne (m : List (String × α)) (k : String) (v : α)
    (d : String) (hne : d ≠ k) :
    (m.map (fun p => if p.1 = k then (k, v) else p)).find?
      (fun p => decide (p.1 = d)) = m.find? (fun p => decide (p.1 = d)) := by
  induction m with
  | nil => rfl
  | cons p t ih =>
    simp only [List.map_cons]
    by_cases hpk : p.1 = k
    · rw [if_pos hpk]
      rw [List.find?_cons_of_neg _ (by simp [Ne.symm hne])]
      rw [List.find?_cons_of_neg _ (by simp [hpk, Ne.symm hne])]
      exact ih
    · rw [if_neg hpk]
      by_cases hpd : p.1 = d
      · rw [List.find?_cons_of_pos _ (by simp [hpd]),
          List.find?_cons_of_pos _ (by simp [hpd])]
      · rw [List.find?_cons_of_neg _ (by simp [hpd]),
          List.find?_cons_of_neg _ (by simp [hpd])]
        exact ih

theorem find?_replace_self (m : List (String × α)) (k : String) (v : α)
    (hany : m.any (fun p => decide (p.1 = k)) = true) :
    (m.map (fun p => if p.1 = k then (k, v) else p)).find?
      (fun p => decide (p.1 = k)) = some (k, v) := by
  induction m with
  | nil => simp at hany
  | cons p t ih =>
    simp only [List.map_cons]
    by_cases hpk : p.1 = k
    · rw [if_pos hpk]
      exact List.find?_cons_of_pos _ (by simp)
    · rw [if_neg hpk]
      rw [List.find?_cons_of_neg _ (by simp [hpk])]
      apply ih
      simp only [List.any_cons, Bool.or_eq_true] at hany
      rcases hany with h | h
      · exact absurd (of_decide_eq_true h) hpk
      · exact h

theorem find?_mapSet_self (m : List (String × α)) (k : String) (v : α) :
    (mapSet m k v).find? (fun p => decide (p.1 = k)) = some (k, v) := by
  by_cases hany : m.any (fun p => decide (p.1 = k)) = true
  · rw [mapSet, if_pos hany]
    exact find?_replace_self m k v hany
  · rw [mapSet, if_neg hany, List.find?_append]
    have h1 : m.find? (fun p => decide (p.1 = k)) = none := by
      rw [List.find?_eq_none]
      intro x hx hdec
      simp only [List.any_eq_true, decide_eq_true_eq, not_exists, not_and] at hany
      exact hany x hx (of_decide_eq_true hdec)
    rw [h1]
    simp

theorem find?_mapSet_ne (m : List (String × α)) (k : String) (v : α)
    (d : String) (hne : d ≠ k) :
    (mapSet m k v).find? (fun p => decide (p.1 = d)) =
      m.find? (fun p => decide (p.1 = d)) := by
  by_cases hany : m.any (fun p => decide (p.1 = k)) = true
  · rw [mapSet, if_pos hany]
    exact find?_replace_ne m k v d hne
  · rw [mapSet, if_neg hany, List.find?_append]
    have h2 : ([(k, v)] : List (String × α)).find? (fun p => decide (p.1 = d)) =
        none := by
      simp [Ne.symm hne]
    rw [h2, Option.or_none]

theorem foldl_mapSet_find? (rows : List (String × α)) :
    ∀ (m : List (String × α)) (d : String),
      ((rows.foldl (fun m row => mapSet m row.1 row.2) m).find?
        (fun p => decide (p.1 = d))) =
      ((rows.reverse.find? (fun p => decide (p.1 = d))).or
        (m.find? (fun p => decide (p.1 = d)))) := by
  induction rows with
  | nil =>
    intro m d
    simp
  | cons r rest ih =>
    intro m d
    simp only [List.foldl_cons, List.reverse_cons, List.find?_append]
    rw [ih]
    rw [Option.or_assoc]
    congr 1
    by_cases hd : d = r.1
    · subst hd
      rw [find?_mapSet_self]
      simp
    · rw [find?_mapSet_ne m r.1 r.2 d hd]
      have h3 : ([r] : List (String × α)).find? (fun p => decide (p.1 = d)) =
          none := by
        have hne2 : r.1 ≠ d := fun h => hd h.symm
        simp [hne2]
      rw [h3, Option.none_or]

theorem foldl_mapSet_nodup (rows : List (String × α)) :
    ∀ m : List (String × α), (m.map Prod.fst).Nodup →
      (((rows.foldl (fun m row => mapSet m row.1 row.2) m)).map Prod.fst).Nodup := by
  induction rows with
  | nil => intro m h; exact h
  | cons r rest ih =>
    intro m h
    exact ih _ (keys_mapSet_nodup m r.1 r.2 h)

theorem foldl_mapSet_of_nodup (rows : List (String × α)) :
    ∀ m : List (String × α), (((m ++ rows).map Prod.fst).Nodup) →
      rows.foldl (fun m row => mapSet m row.1 row.2) m = m ++ rows := by
  induction rows with
  | nil => intro m _; simp
  | cons r rest ih =>
    intro m h
    have hr1 : ¬ m.any (fun p => decide (p.1 = r.1)) = true := by
      simp only [List.any_eq_true, decide_eq_true_eq, not_exists, not_and]
      intro p hp hpk
      rw [List.map_append, List.nodup_append] at h
      exact h.2.2 (List.mem_map_of_mem Prod.fst hp) (by rw [hpk]; simp)
    have hset : mapSet m r.1 r.2 = m ++ [r] := by
      rw [mapSet, if_neg hr1]
    simp only [List.foldl_cons, hset]
    rw [ih (m ++ [r]) (by rw [List.append_assoc]; exact h), List.append_assoc]
    rfl

theorem keyInj (l : List (String × α)) (h : (l.map Prod.fst).Nodup) :
    ∀ p ∈ l, ∀ q ∈ l, p.1 = q.1 → p = q := by
  induction l with
  | nil => intro p hp; cases hp
  | cons x t ih =>
    intro p hp q hq heq
    simp only [List.map_cons, List.nodup_cons] at h
    obtain ⟨hx, ht⟩ := h
    rcases List.mem_cons.mp hp with rfl | hp' <;>
      rcases List.mem_cons.mp hq with rfl | hq'
    · rfl
    · exact absurd (List.mem_map_of_mem Prod.fst hq') (heq ▸ hx)
    · exact absurd (List.mem_map_of_mem Prod.fst hp') (heq ▸ hx)
    · exact ih ht p hp' q hq' heq

theorem find?_perm_of_nodupKeys {l l' : List (String × α)} (hperm : l.Perm l')
    (hnd : (l.map Prod.fst).Nodup) (d : String) :
    l.find? (fun p => decide (p.1 = d)) = l'.find? (fun p => decide (p.1 = d)) := by
  cases h1 : l.find? (fun p => decide (p.1 = d)) with
  | none =>
    have hn := List.find?_eq_none.mp h1
    symm
    rw [List.find?_eq_none]
    intro x hx
    exact hn x (hperm.symm.subset hx)
  | some p =>
    have hp_mem : p ∈ l := List.mem_of_find?_eq_some h1
    have hp_pred := List.find?_some h1
    cases h2 : l'.find? (fun p => decide (p.1 = d)) with
    | none =>
      have hn := List.find?_eq_none.mp h2
      exact absurd hp_pred (hn p (hperm.subset hp_mem))
    | some q =>
      have hq_mem : q ∈ l := hperm.symm.subset (List.mem_of_find?_eq_some h2)
      have hq_pred := List.find?_some h2
      have hpq : p = q := keyInj l hnd p hp_mem q hq_mem
        ((of_decide_eq_true hp_pred).trans (of_decide_eq_true hq_pred).symm)
      rw [hpq]

/-- C8: `dedupeByDate` is idempotent, its output is sorted ascending by date,
each date occurs at most once in the output, and the entry kept for a date is
the last-seen row of the input with that date (`find?` on the output agrees
with `find?` on the reversed input for every date). -/
theorem dedupeByDate_spec (rows : List (String × α)) :
    dedupeByDate (dedupeByDate rows) = dedupeByDate rows ∧
    (dedupeByDate rows).Pairwise (fun a b => a.1 ≤ b.1) ∧
    ((dedupeByDate rows).map Prod.fst).Nodup ∧
    (∀ d : String, (dedupeByDate rows).find? (fun p => decide (p.1 = d)) =
      rows.reverse.find? (fun p => decide (p.1 = d))) := by
  have htrans : ∀ a b c : String × α, decide (a.1 ≤ b.1) = true →
      decide (b.1 ≤ c.1) = true → decide (a.1 ≤ c.1) = true :=
    fun a b c hab hbc =>
      decide_eq_true (le_trans (of_decide_eq_true hab) (of_decide_eq_true hbc))
  have htotal : ∀ a b : String × α,
      (decide (a.1 ≤ b.1) || decide (b.1 ≤ a.1)) = true := fun a b => by
    simpa using le_total a.1 b.1
  have hnd : ((buildDateMap rows).map Prod.fst).Nodup :=
    foldl_mapSet_nodup rows [] (by simp)
  have hperm : (dedupeByDate rows).Perm (buildDateMap rows) :=
    List.mergeSort_perm (buildDateMap rows) _
  have hnd_out : ((dedupeByDate rows).map Prod.fst).Nodup :=
    ((hperm.map Prod.fst).nodup_iff).mpr hnd
  have hsorted : (dedupeByDate rows).Pairwise
      (fun a b => decide (a.1 ≤ b.1) = true) :=
    List.sorted_mergeSort htrans htotal (buildDateMap rows)
  refine ⟨?_, ?_, hnd_out, ?_⟩
  · have hfix : buildDateMap (dedupeByDate rows) = dedupeByDate rows := by
      have := foldl_mapSet_of_nodup (dedupeByDate rows) [] (by simpa using hnd_out)
      simpa [buildDateMap] using this
    show sortByDateAsc (buildDateMap (dedupeByDate rows)) = dedupeByDate rows
    rw [hfix]
    exact List.mergeSort_of_sorted hsorted
  · exact hsorted.imp (fun h => of_decide_eq_true h)
  · intro d
    rw [find?_perm_of_nodupKeys hperm hnd_out d]
    have := foldl_mapSet_find? rows [] d
    simpa [buildDateMap, Option.or_none] using this

theorem busyIndices_cons_busy (i : ℕ) (ws : Multiset WorkerStatus) :
    busyIndices (WorkerStatus.busy i ::ₘ ws) = i ::ₘ busyIndices ws :=
  Multiset.filterMap_cons_some _ _ _ rfl

theorem busyIndices_cons_idle (ws : Multiset WorkerStatus) :
    busyIndices (WorkerStatus.idle ::ₘ ws) = busyIndices ws :=
  Multiset.filterMap_cons_none _ _ rfl

theorem busyIndices_cons_done (ws : Multiset WorkerStatus) :
    busyIndices (WorkerStatus.done ::ₘ ws) = busyIndices ws :=
  Multiset.filterMap_cons_none _ _ rfl

theorem busyIndices_replicate (n : ℕ) :
    busyIndices (Multiset.replicate n WorkerStatus.idle) = 0 := by
  induction n with
  | zero => rfl
  | succ k ih => rw [Multiset.replicate_succ, busyIndices_cons_idle, ih]

theorem busyIndices_all_done (ws : Multiset WorkerStatus)
    (h : ∀ w ∈ ws, w = WorkerStatus.done) : busyIndices ws = 0 := by
  induction ws using Multiset.induction with
  | empty => rfl
  | cons a s ih =>
    have ha : a = WorkerStatus.done := h a (Multiset.mem_cons_self a s)
    rw [ha, busyIndices_cons_done]
    exact ih (fun w hw => h w (Multiset.mem_cons_of_mem hw))

theorem poolInv_init (N W : ℕ) : PoolInv N (initPool W) := by
  refine ⟨Nat.zero_le N, ?_, ?_⟩
  · simp [initPool, busyIndices_replicate]
  · intro hdone
    exact absurd (Multiset.eq_of_mem_replicate hdone) (by simp)

theorem poolInv_step {N : ℕ} {s s' : PoolState} (hinv : PoolInv N s)
    (hstep : PoolStep N s s') : PoolInv N s' := by
  obtain ⟨hle, hsum, hdone⟩ := hinv
  cases hstep with
  | claim h hlt =>
    obtain ⟨t, ht⟩ := Multiset.exists_cons_of_mem h
    rw [ht, busyIndices_cons_idle] at hsum
    refine ⟨show s.next + 1 ≤ N by omega, ?_, ?_⟩
    · show s.processed + busyIndices (WorkerStatus.busy s.next ::ₘ
        s.workers.erase WorkerStatus.idle) = Multiset.range (s.next + 1)
      rw [ht, Multiset.erase_cons_head, busyIndices_cons_busy,
        Multiset.range_succ, Multiset.add_cons, hsum]
    · intro hd
      simp only [ht, Multiset.erase_cons_head] at hd
      rcases Multiset.mem_cons.mp hd with h1 | h1
      · exact absurd h1 (by simp)
      · have hsN : s.next = N := hdone (ht ▸ Multiset.mem_cons_of_mem h1)
        show s.next + 1 = N
        omega
  | exitLoop h hge =>
    obtain ⟨t, ht⟩ := Multiset.exists_cons_of_mem h
    have hnext : s.next = N := le_antisymm hle hge
    rw [ht, busyIndices_cons_idle] at hsum
    refine ⟨hle, ?_, fun _ => hnext⟩
    show s.processed + busyIndices (WorkerStatus.done ::ₘ
      s.workers.erase WorkerStatus.idle) = Multiset.range s.next
    rw [ht, Multiset.erase_cons_head, busyIndices_cons_done]
    exact hsum
  | finish i h =>
    obtain ⟨t, ht⟩ := Multiset.exists_cons_of_mem h
    rw [ht, busyIndices_cons_busy, Multiset.add_cons] at hsum
    refine ⟨hle, ?_, ?_⟩
    · show (i ::ₘ s.processed) + busyIndices (WorkerStatus.idle ::ₘ
        s.workers.erase (WorkerStatus.busy i)) = Multiset.range s.next
      rw [ht, Multiset.erase_cons_head, busyIndices_cons_idle,
        Multiset.cons_add]
      exact hsum
    · intro hd
      simp only [ht, Multiset.erase_cons_head] at hd
      rcases Multiset.mem_cons.mp hd with h1 | h1
      · exact absurd h1 (by simp)
      · exact hdone (ht ▸ Multiset.mem_cons_of_mem h1)

theorem poolStep_card {N : ℕ} {s s' : PoolState} (hstep : PoolStep N s s') :
    Multiset.card s'.workers = Multiset.card s.workers := by
  have hcardfix : ∀ (a b : WorkerStatus) (ws : Multiset WorkerStatus),
      b ∈ ws → Multiset.card (a ::ₘ ws.erase b) = Multiset.card ws := by
    intro a b ws hb
    rw [Multiset.card_cons, Multiset.card_erase_of_mem hb, Nat.pred_eq_sub_one]
    have : 0 < Multiset.card ws := Multiset.card_pos.mpr
      (fun he => by rw [he] at hb; exact absurd hb (Multiset.not_mem_zero b))
    omega
  cases hstep with
  | claim h hlt => exact hcardfix _ _ _ h
  | exitLoop h hge => exact hcardfix _ _ _ h
  | finish i h => exact hcardfix _ _ _ h

theorem poolInv_reachable {N W : ℕ} {s : PoolState}
    (h : Relation.ReflTransGen (PoolStep N) (initPool W) s) : PoolInv N s := by
  induction h with
  | refl => exact poolInv_init N W
  | tail _ hstep ih => exact poolInv_step ih hstep

theorem poolCard_reachable {N W : ℕ} {s : PoolState}
    (h : Relation.ReflTransGen (PoolStep N) (initPool W) s) :
    Multiset.card s.workers = max 1 W := by
  induction h with
  | refl => simp [initPool]
  | tail _ hstep ih => rw [poolStep_card hstep]; exact ih

/-- C9: for every item count `N` and requested worker count `W`, the pool of
`mapWithConcurrency` runs `max(1, W)` workers over the shared cursor, and in
every reachable state in which the pool has returned (all runner loops have
exited) the multiset of completed indices is exactly `0..N-1` — every index
was handed to the callback exactly once, whatever the interleaving. -/
theorem mapWithConcurrency_spec (N W : ℕ) (s : PoolState)
    (hreach : Relation.ReflTransGen (PoolStep N) (initPool W) s)
    (hdone : PoolDone s) :
    s.processed = Multiset.range N ∧ Multiset.card s.workers = max 1 W := by
  have hinv := poolInv_reachable hreach
  have hcard := poolCard_reachable hreach
  refine ⟨?_, hcard⟩
  obtain ⟨hle, hsum, hdN⟩ := hinv
  have hne : s.workers ≠ 0 := by
    intro h0
    rw [h0] at hcard
    have h1 : 1 ≤ max 1 W := le_max_left 1 W
    simp at hcard
    omega
  obtain ⟨w, hw⟩ := Multiset.exists_mem_of_ne_zero hne
  have hN : s.next = N := hdN ((hdone w hw) ▸ hw)
  have hbusy : busyIndices s.workers = 0 := busyIndices_all_done s.workers hdone
  rw [hbusy, add_zero, hN] at hsum
  exact hsum

theorem mapWithConcurrency_spec_witness :
    (⟨1, {0}, {WorkerStatus.done}⟩ : PoolState).processed = Multiset.range 1 ∧
    Multiset.card (⟨1, {0}, {WorkerStatus.done}⟩ : PoolState).workers =
      max 1 1 := by
  apply mapWithConcurrency_spec 1 1
  · refine Relation.ReflTransGen.head (PoolStep.claim _ (by decide) (by decide))
      (Relation.ReflTransGen.head (PoolStep.finish _ 0 (by decide))
        (Relation.ReflTransGen.head (PoolStep.exitLoop _ (by decide) (by decide))
          Relation.ReflTransGen.refl))
  · intro w hw
    exact Multiset.mem_singleton.mp hw

end Screener
